import Mathlib

/-!
Verification development for the Metadata-Hub crawl execution engine.

Shallow embedding of the two source modules:
  crawler/database/connectionFiles.py  (DatabaseConnectionTableFiles)
  crawler/treewalk/worker.py           (Worker)

Conventions of the embedding:
  - Python strings are Lean `String`; `str.split(' ')` is re-implemented
    character-by-character (`splitChar`) with Python's keep-empty semantics.
  - Python `int(...)` on the decimal forms used here is `pyInt`.
  - Fallible external effects (psycopg2 `execute`, `mogrify`, file reads,
    the exiftool subprocess, the per-file insert of the pooled connection)
    are modelled by explicit success flags / oracles supplied as data; a
    raised Python exception is `Except.error` or an abort branch.
  - The database is a passive state record (`DbState`): committed insert
    batches, committed deletion marks, the statements sent, the warnings
    logged.  `commit` appends the pending effect, `rollback` drops it.
  - Logging (`_logger`, debug prints) is modelled as an explicit log list
    where a claim refers to it, and dropped otherwise.
-/

namespace Crawler

/-! ## Python string helpers -/

/-- Python `str.split(' ')` on the character list: split at every single
space, keeping empty chunks (`''.split(' ') == ['']`). -/
def splitChar : List Char → List (List Char)
  | [] => [[]]
  | c :: cs =>
    if c = ' ' then [] :: splitChar cs
    else
      match splitChar cs with
      | [] => [[c]]
      | p :: ps => (c :: p) :: ps

/-- Decimal digit accumulation for `pyInt`; fails on a non-digit. -/
def parseDigitsAux : List Char → Nat → Option Nat
  | [], acc => some acc
  | c :: cs, acc =>
    if c.isDigit then parseDigitsAux cs (acc * 10 + (c.toNat - 48)) else none

/-- Python `int(s)` restricted to the plain decimal forms relevant here:
an optional leading minus sign followed by one or more digits; anything
else raises (`none`). -/
def pyInt : List Char → Option Int
  | [] => none
  | '-' :: cs =>
    if cs = [] then none else (parseDigitsAux cs 0).map (fun m => -(m : Int))
  | cs => (parseDigitsAux cs 0).map (fun m => (m : Int))

/-! ## Worker.getSize (worker.py lines 154-175) -/

/-- Worker.getSize: convert an exiftool size string `"<number> <unit>"`
into a byte-count string.  `unit = size.split(' ')[1]` (IndexError when
missing → `none`), the multiplier is selected by `unit[0]` (IndexError on
empty unit → `none`), and `int(size.split(' ')[0])` may raise → `none`. -/
def getSize (size : String) : Option String :=
  match splitChar size.toList with
  | p0 :: unit :: _ =>
    match unit with
    | [] => none
    | u0 :: _ =>
      let multipl : Int :=
        if u0 = 'k' then 1000
        else if u0 = 'm' then 1000000
        else if u0 = 'g' then 1000000000
        else if u0 = 't' then 1000000000000
        else 1
      match pyInt p0 with
      | none => none
      | some n => some (toString (n * multipl))
  | _ => none

/-! ## Worker.createInsert (worker.py lines 116-151) -/

/-- Exiftool output for one file: the seven keys the worker reads, each
possibly absent, plus the raw serialized object (`json.dumps(result)`). -/
structure ExifResult where
  directory : Option String
  fileName : Option String
  fileType : Option String
  fileSize : Option String
  fileAccessDate : Option String
  fileModifyDate : Option String
  fileCreationDate : Option String
  raw : String
deriving DecidableEq

/-- The mandatory-field validity check of createInsert: all of
Directory, FileName, FileType, FileSize present. -/
def validExif (x : ExifResult) : Bool :=
  x.directory.isSome && x.fileName.isSome && x.fileType.isSome && x.fileSize.isSome

/-- Date rewriting of createInsert: `valueTmp = "'" + exif[i]`, then
`valueTmp[1:12].replace(':', '-') + valueTmp[13:]`; a missing key
(KeyError) yields the `-infinity` sentinel. -/
def dateField (d : Option String) : String :=
  match d with
  | none => "\x27-infinity\x27, "
  | some ds =>
    let valueTmp := "\x27" ++ ds
    let l := valueTmp.toList
    "\x27" ++ String.mk (((l.drop 1).take 11).map (fun c => if c = ':' then '-' else c)
        ++ l.drop 13) ++ "\x27, "

/-- FileSize rendering of createInsert: `getSize` result quoted, or
`NULL` when getSize raised. -/
def sizeField (fs : String) : String :=
  match getSize fs with
  | some v => "\x27" ++ v ++ "\x27, "
  | none => "NULL, "

/-- Worker.createInsert: returns the literal string `"0"` when any of
the four mandatory keys is missing, otherwise appends the quoted
Directory, FileName, FileType, the normalized size, and the three
rewritten dates to `value`. -/
def createInsert (exif : ExifResult) (value : String) : String :=
  if validExif exif then
    value
      ++ "\x27" ++ exif.directory.getD "" ++ "\x27, "
      ++ "\x27" ++ exif.fileName.getD "" ++ "\x27, "
      ++ "\x27" ++ exif.fileType.getD "" ++ "\x27, "
      ++ sizeField (exif.fileSize.getD "")
      ++ dateField exif.fileAccessDate
      ++ dateField exif.fileModifyDate
      ++ dateField exif.fileCreationDate
  else "0"

/-! ## Worker state, _do_work, _clean_up, run_command, run -/

/-- One file inside a work package, together with the behaviour of the
external world for it: whether the content-hash read succeeds (and its
value), and whether the per-file database insert succeeds. -/
structure FileEntry where
  exif : ExifResult
  hashOk : Bool
  hashVal : String
  insertOk : Bool
deriving DecidableEq

/-- A work package (list of paths) together with the outcome of its one
exiftool invocation: `extractorOk = false` means Popen/json.load raised;
otherwise `entries` are the structured results in order. -/
structure WorkUnit where
  extractorOk : Bool
  entries : List FileEntry
deriving DecidableEq

/-- Events the worker logs or prints that the claims refer to. -/
inductive WLog where
  | skipMissingField
  | unitFault
  | invalidCommand
deriving DecidableEq

/-- Worker-process state: the two queues (front = next item), whether the
pooled database connection is still open, the insert statements issued so
far, and the log. -/
structure WorkerState where
  commands : List String
  work : List WorkUnit
  connOpen : Bool
  inserted : List String
  log : List WLog
deriving DecidableEq

def COMMAND_STOP : String := "stop"
def COMMAND_PAUSE : String := "pause"
def COMMAND_UNPAUSE : String := "unpause"

/-- Worker._clean_up: close the connection pool and drain (discard) every
remaining work package. -/
def clean_up (s : WorkerState) : WorkerState :=
  { s with connOpen := false, work := [] }

/-- The constant statement head `insertin` of _do_work (worker.py 190). -/
def insertin : String :=
  "INSERT INTO files (crawl_id, dir_path, name, type, size, creation_time, access_time, modification_time, metadata, file_hash) "

/-- The `value` seed of _do_work (worker.py 191): `VALUES ('<tw>', `. -/
def valueStart (tw : Int) : String :=
  "VALUES (\x27" ++ toString tw ++ "\x27, "

/-- The full per-file insert statement _do_work sends:
`insertin + values + "'<json>'" + ", " + "'<hash>'" + ")"`. -/
def insertStmt (tw : Int) (e : FileEntry) : String :=
  insertin ++ createInsert e.exif (valueStart tw)
    ++ "\x27" ++ e.exif.raw ++ "\x27" ++ ", " ++ "\x27" ++ e.hashVal ++ "\x27" ++ ")"

/-- The result loop of Worker._do_work.  For each exif result in order:
if createInsert returned `"0"` the file is skipped (printed, continue);
otherwise the content hash is read (an IO failure raises, is caught by
the unit-level `except`, printed, and the rest of the unit is dropped);
then the insert is sent (a database failure likewise aborts the rest of
the unit). -/
def processEntries (tw : Int) : List FileEntry → WorkerState → WorkerState
  | [], s => s
  | e :: rest, s =>
    let values := createInsert e.exif (valueStart tw)
    if values = "0" then
      processEntries tw rest { s with log := s.log ++ [WLog.skipMissingField] }
    else if e.hashOk = false then
      { s with log := s.log ++ [WLog.unitFault] }
    else if e.insertOk = false then
      { s with log := s.log ++ [WLog.unitFault] }
    else
      processEntries tw rest { s with inserted := s.inserted ++ [insertStmt tw e] }

/-- Worker._do_work: one exiftool invocation for the whole package; a
failed invocation raises, is caught by the surrounding `except`, and is
printed (logged); otherwise the results are processed in order. -/
def do_work (tw : Int) (package : WorkUnit) (s : WorkerState) : WorkerState :=
  if package.extractorOk then processEntries tw package.entries s
  else { s with log := s.log ++ [WLog.unitFault] }

/-- Worker.run_command, with the command queue passed explicitly (the
recursive `pause` dispatch pops it): `unpause` returns False (continue),
`pause` blocks on the next command (`none` models blocking forever on an
empty queue) and dispatches it recursively, `stop` cleans up and returns
True, and any unknown command logs critical, cleans up and returns True. -/
def run_command_aux (cmd : String) (cmds : List String) (s : WorkerState) :
    Option (Bool × WorkerState) :=
  if cmd = COMMAND_UNPAUSE then some (false, { s with commands := cmds })
  else if cmd = COMMAND_PAUSE then
    match cmds with
    | [] => none
    | c :: rest => run_command_aux c rest s
  else if cmd = COMMAND_STOP then some (true, clean_up { s with commands := cmds })
  else
    some (true, clean_up { s with commands := cmds, log := s.log ++ [WLog.invalidCommand] })

/-- Worker.run_command on the worker state. -/
def run_command (cmd : String) (s : WorkerState) : Option (Bool × WorkerState) :=
  run_command_aux cmd s.commands s

theorem run_command_aux_some (cmds : List String) :
    ∀ (cmd : String) (s : WorkerState) (b : Bool) (s1 : WorkerState),
      run_command_aux cmd cmds s = some (b, s1) →
      (b = false → ∃ cs, cs.length ≤ cmds.length ∧ s1 = { s with commands := cs }) ∧
      (b = true → s1.connOpen = false ∧ s1.work = [] ∧ s1.commands.length ≤ cmds.length) := by
  induction cmds with
  | nil =>
    intro cmd s b s1 h
    rw [run_command_aux] at h
    split_ifs at h with h1 h2 h3
    · cases h
      exact ⟨fun _ => ⟨[], by simp⟩, by simp⟩
    · cases h
      refine ⟨by simp, fun _ => ?_⟩
      simp [clean_up]
    · cases h
      refine ⟨by simp, fun _ => ?_⟩
      simp [clean_up]
  | cons c cs ih =>
    intro cmd s b s1 h
    rw [run_command_aux] at h
    split_ifs at h with h1 h2 h3
    · cases h
      exact ⟨fun _ => ⟨c :: cs, by simp⟩, by simp⟩
    · have := ih c s b s1 h
      refine ⟨fun hb => ?_, fun hb => ?_⟩
      · obtain ⟨cs2, hlen, heq⟩ := this.1 hb
        exact ⟨cs2, by simpa using Nat.le_succ_of_le hlen, heq⟩
      · obtain ⟨ho, hw, hlen⟩ := this.2 hb
        exact ⟨ho, hw, by simpa using Nat.le_succ_of_le hlen⟩
    · cases h
      refine ⟨by simp, fun _ => ?_⟩
      simp [clean_up]
    · cases h
      refine ⟨by simp, fun _ => ?_⟩
      simp [clean_up]

theorem run_command_some {cmd : String} {s : WorkerState} {b : Bool} {s1 : WorkerState}
    (h : run_command cmd s = some (b, s1)) :
    (b = false → s1.work = s.work ∧ s1.commands.length ≤ s.commands.length) ∧
    (b = true → s1.connOpen = false ∧ s1.work = [] ∧ s1.commands.length ≤ s.commands.length) := by
  have := run_command_aux_some s.commands cmd s b s1 h
  refine ⟨fun hb => ?_, this.2⟩
  obtain ⟨cs, hlen, heq⟩ := this.1 hb
  subst heq
  exact ⟨rfl, hlen⟩

theorem processEntries_queues (tw : Int) (es : List FileEntry) :
    ∀ s : WorkerState, (processEntries tw es s).commands = s.commands ∧
      (processEntries tw es s).work = s.work ∧
      (processEntries tw es s).connOpen = s.connOpen := by
  induction es with
  | nil => intro s; simp [processEntries]
  | cons e rest ih =>
    intro s
    rw [processEntries]
    split_ifs with h1 h2 h3
    · simpa using ih _
    · simp
    · simp
    · simpa using ih _

theorem do_work_queues (tw : Int) (package : WorkUnit) (s : WorkerState) :
    (do_work tw package s).commands = s.commands ∧
      (do_work tw package s).work = s.work ∧
      (do_work tw package s).connOpen = s.connOpen := by
  rw [do_work]
  split_ifs with h
  · exact processEntries_queues tw package.entries s
  · simp

/-- Worker.run: each iteration first polls the command queue
non-blockingly (dispatching any command to run_command, where a True
result breaks the loop), then polls the work queue non-blockingly —
an empty work queue ends the loop (with NO clean-up) — and otherwise
processes the package.  `none` models a worker blocked forever inside a
paused run_command. -/
def run (tw : Int) (s : WorkerState) : Option WorkerState :=
  match hc : s.commands with
  | cmd :: rest =>
    match hrc : run_command cmd { s with commands := rest } with
    | none => none
    | some (true, s1) => some s1
    | some (false, s1) =>
      match hw : s1.work with
      | [] => some s1
      | package :: wrest => run tw (do_work tw package { s1 with work := wrest })
  | [] =>
    match hw : s.work with
    | [] => some s
    | package :: wrest => run tw (do_work tw package { s with work := wrest })
termination_by s.commands.length + s.work.length
decreasing_by
  · have h1 := (run_command_some hrc).1 rfl
    simp at h1
    have h2 := do_work_queues tw package { s1 with work := wrest }
    have h3 : s.work.length = wrest.length + 1 := by
      rw [← h1.1, hw]; simp
    simp only [h2.1, h2.2.1, hc]
    simp
    omega
  · have h2 := do_work_queues tw package { s with work := wrest }
    simp only [h2.1, h2.2.1]
    simp [hc, hw]

/-! ## Step lemmas for the run loop -/

theorem run_cmd_none (tw : Int) (s : WorkerState) (cmd : String) (rest : List String)
    (h1 : s.commands = cmd :: rest)
    (hrc : run_command cmd { s with commands := rest } = none) :
    run tw s = none := by
  rw [run.eq_def]
  split
  · rename_i cmd2 rest2 heq
    rw [h1] at heq
    injection heq with e1 e2
    subst e1; subst e2
    split
    · rfl
    · rename_i s1 heq2
      rw [hrc] at heq2
      simp at heq2
    · rename_i s1 heq2
      rw [hrc] at heq2
      simp at heq2
  · rename_i heq
    rw [h1] at heq
    simp at heq

theorem run_cmd_true (tw : Int) (s : WorkerState) (cmd : String) (rest : List String)
    (s1 : WorkerState) (h1 : s.commands = cmd :: rest)
    (hrc : run_command cmd { s with commands := rest } = some (true, s1)) :
    run tw s = some s1 := by
  rw [run.eq_def]
  split
  · rename_i cmd2 rest2 heq
    rw [h1] at heq
    injection heq with e1 e2
    subst e1; subst e2
    split
    · rename_i heq2
      rw [hrc] at heq2
      simp at heq2
    · rename_i s2 heq2
      rw [hrc] at heq2
      simp at heq2
      rw [heq2]
    · rename_i s2 heq2
      rw [hrc] at heq2
      simp at heq2
  · rename_i heq
    rw [h1] at heq
    simp at heq

theorem run_cmd_false_nil (tw : Int) (s : WorkerState) (cmd : String) (rest : List String)
    (s1 : WorkerState) (h1 : s.commands = cmd :: rest)
    (hrc : run_command cmd { s with commands := rest } = some (false, s1))
    (hw : s1.work = []) :
    run tw s = some s1 := by
  rw [run.eq_def]
  split
  · rename_i cmd2 rest2 heq
    rw [h1] at heq
    injection heq with e1 e2
    subst e1; subst e2
    split
    · rename_i heq2
      rw [hrc] at heq2
      simp at heq2
    · rename_i s2 heq2
      rw [hrc] at heq2
      simp at heq2
    · rename_i s2 heq2
      rw [hrc] at heq2
      simp at heq2
      subst heq2
      split
      · rfl
      · rename_i pkg wrest heq3
        rw [hw] at heq3
        simp at heq3
  · rename_i heq
    rw [h1] at heq
    simp at heq

theorem run_cmd_false_cons (tw : Int) (s : WorkerState) (cmd : String) (rest : List String)
    (s1 : WorkerState) (package : WorkUnit) (wrest : List WorkUnit)
    (h1 : s.commands = cmd :: rest)
    (hrc : run_command cmd { s with commands := rest } = some (false, s1))
    (hw : s1.work = package :: wrest) :
    run tw s = run tw (do_work tw package { s1 with work := wrest }) := by
  rw [run.eq_def]
  split
  · rename_i cmd2 rest2 heq
    rw [h1] at heq
    injection heq with e1 e2
    subst e1; subst e2
    split
    · rename_i heq2
      rw [hrc] at heq2
      simp at heq2
    · rename_i s2 heq2
      rw [hrc] at heq2
      simp at heq2
    · rename_i s2 heq2
      rw [hrc] at heq2
      simp at heq2
      subst heq2
      split
      · rename_i heq3
        rw [hw] at heq3
        simp at heq3
      · rename_i pkg2 wrest2 heq3
        rw [hw] at heq3
        injection heq3 with e3 e4
        subst e3; subst e4
        rfl
  · rename_i heq
    rw [h1] at heq
    simp at heq

theorem run_nil_nil (tw : Int) (s : WorkerState) (h1 : s.commands = [])
    (h2 : s.work = []) : run tw s = some s := by
  rw [run.eq_def]
  split
  · rename_i cmd2 rest2 heq
    rw [h1] at heq
    simp at heq
  · split
    · rfl
    · rename_i pkg wrest heq
      rw [h2] at heq
      simp at heq

theorem run_nil_cons (tw : Int) (s : WorkerState) (package : WorkUnit)
    (wrest : List WorkUnit) (h1 : s.commands = []) (h2 : s.work = package :: wrest) :
    run tw s = run tw (do_work tw package { s with work := wrest }) := by
  rw [run.eq_def]
  split
  · rename_i cmd2 rest2 heq
    rw [h1] at heq
    simp at heq
  · split
    · rename_i heq
      rw [h2] at heq
      simp at heq
    · rename_i pkg2 wrest2 heq
      rw [h2] at heq
      injection heq with e3 e4
      subst e3; subst e4
      rfl

theorem run_some_work_nil (tw : Int) (s : WorkerState) :
    ∀ s', run tw s = some s' → s'.work = [] := by
  induction s using run.induct with
  | tw => exact tw
  | case1 s cmd rest hc hrc =>
    intro s' h
    rw [run_cmd_none tw s cmd rest hc hrc] at h
    cases h
  | case2 s cmd rest hc s1 hrc =>
    intro s' h
    rw [run_cmd_true tw s cmd rest s1 hc hrc] at h
    injection h with e
    subst e
    exact ((run_command_some hrc).2 rfl).2.1
  | case3 s cmd rest hc s1 hrc hw =>
    intro s' h
    rw [run_cmd_false_nil tw s cmd rest s1 hc hrc hw] at h
    injection h with e
    subst e
    exact hw
  | case4 s cmd rest hc s1 hrc package wrest hw ih1 =>
    intro s' h
    rw [run_cmd_false_cons tw s cmd rest s1 package wrest hc hrc hw] at h
    exact ih1 s' h
  | case5 s hc hw =>
    intro s' h
    rw [run_nil_nil tw s hc hw] at h
    injection h with e
    subst e
    exact hw
  | case6 s hc package wrest hw ih1 =>
    intro s' h
    rw [run_nil_cons tw s package wrest hc hw] at h
    exact ih1 s' h

/-! ## Record-builder lemmas -/

theorem createInsert_invalid {x : ExifResult} (h : validExif x = false) (v : String) :
    createInsert x v = "0" := by
  simp [createInsert, h]

theorem createInsert_ne_zero {x : ExifResult} (h : validExif x = true) (tw : Int) :
    createInsert x (valueStart tw) ≠ "0" := by
  rw [createInsert, if_pos h]
  intro heq
  have hl := congrArg String.length heq
  simp only [String.length_append] at hl
  have h9 : ("VALUES (\x27" : String).length = 9 := rfl
  have h3 : ("\x27, " : String).length = 3 := rfl
  have h1 : 12 ≤ (valueStart tw).length := by
    simp [valueStart, String.length_append, h9, h3]
  have h0 : ("0" : String).length = 1 := rfl
  rw [h0] at hl
  omega

theorem values_eq_zero_iff (x : ExifResult) (tw : Int) :
    (createInsert x (valueStart tw) = "0") ↔ validExif x = false := by
  constructor
  · intro h
    by_contra hne
    exact createInsert_ne_zero (by simpa using hne) tw h
  · intro h
    exact createInsert_invalid h _

/-- An entry on which processing does not abort the unit: either it is
skipped by validation, or its hash read and insert both succeed. -/
def cleanEntry (e : FileEntry) : Prop :=
  validExif e.exif = true → e.hashOk = true ∧ e.insertOk = true

instance (e : FileEntry) : Decidable (cleanEntry e) := by
  unfold cleanEntry; infer_instance

theorem processEntries_clean (tw : Int) (es : List FileEntry) :
    ∀ s : WorkerState, (∀ e ∈ es, cleanEntry e) →
      processEntries tw es s =
        { s with
          inserted := s.inserted ++ (es.filter (fun e => validExif e.exif)).map (insertStmt tw),
          log := s.log ++ (es.filter (fun e => !validExif e.exif)).map
            (fun _ => WLog.skipMissingField) } := by
  induction es with
  | nil => intro s _; simp [processEntries]
  | cons e rest ih =>
    intro s h
    rw [processEntries]
    by_cases hv : validExif e.exif = true
    · have hvz : ¬(createInsert e.exif (valueStart tw) = "0") := by
        rw [values_eq_zero_iff]; simp [hv]
      obtain ⟨hh, hi⟩ := h e (by simp) hv
      rw [if_neg hvz]
      simp only [hh, hi]
      rw [ih _ (fun e' he' => h e' (by simp [he']))]
      simp [hv, List.append_assoc]
    · have hvz : createInsert e.exif (valueStart tw) = "0" :=
        createInsert_invalid (by simpa using hv) _
      rw [if_pos hvz]
      rw [ih _ (fun e' he' => h e' (by simp [he']))]
      simp [hv, List.append_assoc]

theorem processEntries_fault (tw : Int) (front : List FileEntry) :
    ∀ (s : WorkerState) (e : FileEntry) (back : List FileEntry),
      (∀ x ∈ front, cleanEntry x) → validExif e.exif = true →
      (e.hashOk = false ∨ e.insertOk = false) →
      processEntries tw (front ++ e :: back) s =
        { s with
          inserted := s.inserted ++ (front.filter (fun x => validExif x.exif)).map (insertStmt tw),
          log := s.log ++ (front.filter (fun x => !validExif x.exif)).map
            (fun _ => WLog.skipMissingField) ++ [WLog.unitFault] } := by
  induction front with
  | nil =>
    intro s e back _ hv hfault
    rw [List.nil_append, processEntries]
    have hvz : ¬(createInsert e.exif (valueStart tw) = "0") := by
      rw [values_eq_zero_iff]; simp [hv]
    rw [if_neg hvz]
    rcases hfault with hf | hf
    · rw [if_pos hf]
      simp
    · by_cases hh : e.hashOk = false
      · rw [if_pos hh]
        simp
      · rw [if_neg hh, if_pos hf]
        simp
  | cons x front' ih =>
    intro s e back h hv hfault
    rw [List.cons_append, processEntries]
    by_cases hvx : validExif x.exif = true
    · have hvz : ¬(createInsert x.exif (valueStart tw) = "0") := by
        rw [values_eq_zero_iff]; simp [hvx]
      obtain ⟨hh, hi⟩ := h x (by simp) hvx
      rw [if_neg hvz]
      simp only [hh, hi]
      rw [ih _ e back (fun x' hx' => h x' (by simp [hx'])) hv hfault]
      simp [hvx, List.append_assoc]
    · have hvz : createInsert x.exif (valueStart tw) = "0" :=
        createInsert_invalid (by simpa using hvx) _
      rw [if_pos hvz]
      rw [ih _ e back (fun x' hx' => h x' (by simp [hx'])) hv hfault]
      simp [hvx, List.append_assoc]

/-! ## DatabaseConnectionTableFiles (connectionFiles.py) -/

/-- One tuple handed to insert_new_record_files, together with the
behaviour of `curs.mogrify` on it: `rendered` is the decoded output
(the filled `"(%s,...,%s),"` row fragment, trailing comma included) and
`renderOk` is whether mogrify raises instead. -/
structure FileRow where
  rendered : String
  renderOk : Bool
deriving DecidableEq

/-- Passive database/session state: committed insert batches, committed
bulk-deletion marks, every statement sent to `curs.execute`, and the
warnings written by `_logger.warning`. -/
structure DbState where
  insertedBatches : List (List FileRow)
  deletedMarks : List (List Int)
  executed : List String
  warnings : List String
deriving DecidableEq

/-- The constant statement head of insert_new_record_files
(connectionFiles.py lines 83-84). -/
def insertQueryStart : String :=
  "INSERT INTO \"files\" (\"crawl_id\",\"dir_path\",\"name\",\"type\",\"size\",\"metadata\",\"creation_time\", \"access_time\",\"modification_time\",\"deleted\",\"deleted_time\",\"file_hash\", \"in_metadata\") VALUES "

/-- The mogrify loop of insert_new_record_files: append each row's
rendered fragment to the query; a mogrify failure raises immediately
(`none`), outside the try/except of the execute. -/
def buildQuery : List FileRow → String → Option String
  | [], q => some q
  | r :: rest, q => if r.renderOk then buildQuery rest (q ++ r.rendered) else none

/-- Concatenation of the rendered row fragments, in order. -/
def renderedValues : List FileRow → String
  | [] => ""
  | r :: rest => r.rendered ++ renderedValues rest

/-- The single multi-row statement sent when every mogrify succeeds:
the built query minus its final character (`query[:-1]`). -/
def renderedInsertQuery (rows : List FileRow) : String :=
  (insertQueryStart ++ renderedValues rows).dropRight 1

/-- DatabaseConnectionTableFiles.insert_new_record_files: build one
multi-row INSERT via mogrify, send it once; on an execute failure log a
warning, roll back and re-raise; on success commit the batch.  `execOk`
is the database's behaviour on a given statement. -/
def insert_new_record_files (execOk : String → Bool) (insert_values : List FileRow)
    (db : DbState) : Except Unit Unit × DbState :=
  match buildQuery insert_values insertQueryStart with
  | none => (Except.error (), db)
  | some q =>
    let q1 := q.dropRight 1
    if execOk q1 then
      (Except.ok (), { db with executed := db.executed ++ [q1],
                               insertedBatches := db.insertedBatches ++ [insert_values] })
    else
      (Except.error (), { db with executed := db.executed ++ [q1],
                                  warnings := db.warnings ++ ["Error inserting new files into the database"] })

/-- One row of the `files` table as fetched by check_directory's SELECT
(`id, crawl_id, dir_path, name, file_hash`). -/
structure FileRowRec where
  id : Int
  crawl_id : Int
  dir_path : String
  name : String
  file_hash : String
deriving DecidableEq

/-- The rows of storage whose `dir_path` equals `path` — what the SELECT
of check_directory fetches. -/
def dirRows (storage : List FileRowRec) (path : String) : List FileRowRec :=
  storage.filter (fun r => r.dir_path == path)

/-- The set of crawl ids present for a directory
(`id_set = set([x[1] for x in get])`). -/
def crawlIds (storage : List FileRowRec) (path : String) : Finset Int :=
  ((dirRows storage path).map (fun r => r.crawl_id)).toFinset

/-- DatabaseConnectionTableFiles.check_directory: fetch every record for
`path` (a failing query is swallowed: return `[]`); remove the maximum
crawl id from the id set (`max` of an empty set raises ValueError —
modelled as `Except.error`); if nothing remains return `[]`; otherwise
the baseline is the new maximum and the result keeps the ids of baseline
rows whose hash is in `current_hashes`. -/
def check_directory (queryOk : Bool) (storage : List FileRowRec) (path : String)
    (current_hashes : List String) : Except Unit (List Int) :=
  if queryOk then
    let get := dirRows storage path
    let id_set := (get.map (fun r => r.crawl_id)).toFinset
    match id_set.max with
    | none => Except.error ()
    | some mx =>
      let id_set2 := id_set.erase mx
      if h : id_set2.Nonempty then
        let recent_crawl := id_set2.max' h
        Except.ok ((get.filter (fun r =>
          r.crawl_id == recent_crawl && decide (r.file_hash ∈ current_hashes))).map (fun r => r.id))
      else Except.ok []
  else Except.ok []

/-- The UPDATE statement of set_deleted; the pypika/mogrify rendering is
modelled opaquely from the id list (the `deleted_time=now()` timestamp is
a fixed placeholder). -/
def deleteQueryOf (file_ids : List Int) : String :=
  "UPDATE \"files\" SET \"deleted\"=true,\"deleted_time\"=now() WHERE \"id\" IN " ++ toString file_ids

/-- DatabaseConnectionTableFiles.set_deleted: a no-op when `file_ids` is
empty (no query issued); otherwise send one UPDATE, commit on success,
and on failure print, log a warning and roll back — the error is never
re-raised (the return type is plain `DbState`). -/
def set_deleted (execOk : String → Bool) (file_ids : List Int) (db : DbState) : DbState :=
  if file_ids.length < 1 then db
  else
    let q := deleteQueryOf file_ids
    if execOk q then
      { db with executed := db.executed ++ [q], deletedMarks := db.deletedMarks ++ [file_ids] }
    else
      { db with executed := db.executed ++ [q],
                warnings := db.warnings ++ ["Error updating file deletion"] }

/-! ## Claim theorems -/

/-- C8: for every size string of the form `"<n> <unit>"` (split on single
spaces, the number parsed by `int`), getSize returns `n` multiplied by a
factor chosen by the first character of the unit string: `k` gives 10^3,
`m` gives 10^6, `g` gives 10^9, `t` gives 10^12, and any other first
character gives 1 — base-1000 multipliers, never base-1024. -/
theorem getSize_base1000 (s : String) (numcs : List Char) (u0 : Char) (utl : List Char)
    (parts : List (List Char)) (n : Int)
    (hsplit : splitChar s.toList = numcs :: (u0 :: utl) :: parts)
    (hnum : pyInt numcs = some n) :
    (u0 = 'k' → getSize s = some (toString (n * 1000))) ∧
    (u0 = 'm' → getSize s = some (toString (n * 1000000))) ∧
    (u0 = 'g' → getSize s = some (toString (n * 1000000000))) ∧
    (u0 = 't' → getSize s = some (toString (n * 1000000000000))) ∧
    (u0 ≠ 'k' → u0 ≠ 'm' → u0 ≠ 'g' → u0 ≠ 't' → getSize s = some (toString n)) := by
  refine ⟨fun h => ?_, fun h => ?_, fun h => ?_, fun h => ?_, fun h1 h2 h3 h4 => ?_⟩
  · simp only [getSize, hsplit, hnum]
    simp [h]
  · simp only [getSize, hsplit, hnum]
    simp [h]
  · simp only [getSize, hsplit, hnum]
    simp [h]
  · simp only [getSize, hsplit, hnum]
    simp [h]
  · simp only [getSize, hsplit, hnum]
    simp [h1, h2, h3, h4]

/-- Witness for C8 at the concrete size string `"5 kB"`. -/
theorem getSize_base1000_witness : getSize "5 kB" = some (toString ((5 : Int) * 1000)) :=
  (getSize_base1000 "5 kB" ['5'] 'k' ['B'] [] 5 (by decide) (by decide)).1 rfl

/-- C10: when the history query succeeds but storage holds no records at
all for the directory, check_directory hits `max` of an empty crawl-id
set and raises an uncaught ValueError (modelled `Except.error`) instead
of returning a candidate list. -/
theorem check_directory_empty_history (storage : List FileRowRec) (path : String)
    (hashes : List String) (h : dirRows storage path = []) :
    check_directory true storage path hashes = Except.error () := by
  simp only [check_directory, h]
  rfl

/-- Witness for C10: empty storage, any path. -/
theorem check_directory_empty_history_witness :
    check_directory true [] "/d" [] = Except.error () :=
  check_directory_empty_history [] "/d" [] rfl

/-- C7: for every directory path with exactly one crawl generation
recorded (all stored rows for the path share one crawl id),
check_directory returns the empty list. -/
theorem check_directory_single_generation (queryOk : Bool) (storage : List FileRowRec)
    (path : String) (hashes : List String) (g : Int)
    (hne : dirRows storage path ≠ [])
    (hall : ∀ r ∈ dirRows storage path, r.crawl_id = g) :
    check_directory queryOk storage path hashes = Except.ok [] := by
  cases queryOk with
  | false => rfl
  | true =>
    have hids : ((dirRows storage path).map (fun r => r.crawl_id)).toFinset = {g} := by
      apply Finset.ext
      intro c
      simp only [List.mem_toFinset, List.mem_map, Finset.mem_singleton]
      constructor
      · rintro ⟨r, hr, rfl⟩
        exact hall r hr
      · rintro rfl
        obtain ⟨r, hr⟩ := List.exists_mem_of_ne_nil _ hne
        exact ⟨r, hr, hall r hr⟩
    simp only [check_directory, hids]
    rw [if_pos trivial]
    split
    · rename_i heq
      rw [Finset.max_singleton] at heq
      exact absurd heq WithBot.coe_ne_bot
    · rename_i mx heq
      rw [Finset.max_singleton] at heq
      have hg : g = mx := WithBot.coe_inj.mp heq
      subst hg
      have hno : ¬(({g} : Finset ℤ).erase g).Nonempty := by
        rw [Finset.erase_singleton]
        exact Finset.not_nonempty_empty
      rw [dif_neg hno]

/-- Witness for C7: one row, one generation. -/
theorem check_directory_single_generation_witness :
    check_directory true [⟨7, 4, "/d", "a", "h1"⟩] "/d" ["h1"] = Except.ok [] :=
  check_directory_single_generation true [⟨7, 4, "/d", "a", "h1"⟩] "/d" ["h1"] 4
    (by decide) (by decide)

/-- C1: for every directory path with at least two crawl generations
recorded, check_directory returns exactly the record ids whose crawl id
equals the second-highest crawl id present for that path (the baseline
`b`: a member below the maximum `mx` that bounds every non-maximal crawl
id) and whose file hash is a member of `current_hashes`; records of
older generations never appear in the result. -/
theorem check_directory_baseline (storage : List FileRowRec) (path : String)
    (hashes : List String) (h2 : 2 ≤ (crawlIds storage path).card) :
    ∃ b mx : Int,
      mx ∈ crawlIds storage path ∧ (∀ c ∈ crawlIds storage path, c ≤ mx) ∧
      b ∈ crawlIds storage path ∧ b < mx ∧
      (∀ c ∈ crawlIds storage path, c ≠ mx → c ≤ b) ∧
      ∃ l, check_directory true storage path hashes = Except.ok l ∧
        ∀ i : Int, i ∈ l ↔ ∃ r ∈ dirRows storage path,
          r.id = i ∧ r.crawl_id = b ∧ r.file_hash ∈ hashes := by
  have hne : (crawlIds storage path).Nonempty := Finset.card_pos.mp (by omega)
  have hcard : ((crawlIds storage path).erase ((crawlIds storage path).max' hne)).card
      = (crawlIds storage path).card - 1 :=
    Finset.card_erase_of_mem (Finset.max'_mem _ _)
  have herase : ((crawlIds storage path).erase ((crawlIds storage path).max' hne)).Nonempty :=
    Finset.card_pos.mp (by omega)
  refine ⟨((crawlIds storage path).erase ((crawlIds storage path).max' hne)).max' herase,
    (crawlIds storage path).max' hne, Finset.max'_mem _ _,
    fun c hc => Finset.le_max' _ _ hc, ?_, ?_, ?_, ?_⟩
  · exact Finset.mem_of_mem_erase (Finset.max'_mem _ _)
  · have hbmem := Finset.max'_mem _ herase
    exact lt_of_le_of_ne (Finset.le_max' _ _ (Finset.mem_of_mem_erase hbmem))
      (Finset.ne_of_mem_erase hbmem)
  · intro c hc hcne
    exact Finset.le_max' _ _ (Finset.mem_erase.mpr ⟨hcne, hc⟩)
  · simp only [check_directory]
    rw [if_pos trivial]
    split
    · rename_i heq
      have hempty : ((dirRows storage path).map (fun r => r.crawl_id)).toFinset = ∅ :=
        Finset.max_eq_bot.mp heq
      have hne2 : (((dirRows storage path).map (fun r => r.crawl_id)).toFinset).Nonempty := hne
      rw [hempty] at hne2
      exact absurd hne2 (by simp)
    · rename_i mx2 heq
      have hmx2 : mx2 = (crawlIds storage path).max' hne := by
        have hcoe : (((crawlIds storage path).max' hne : Int) : WithBot Int)
            = ((dirRows storage path).map (fun r => r.crawl_id)).toFinset.max :=
          Finset.coe_max' hne
        rw [← hcoe] at heq
        exact (WithBot.coe_inj.mp heq).symm
      subst hmx2
      have hnonempty : (((dirRows storage path).map (fun r => r.crawl_id)).toFinset.erase
          ((crawlIds storage path).max' hne)).Nonempty := herase
      rw [dif_pos hnonempty]
      refine ⟨_, rfl, fun i => ?_⟩
      simp only [List.mem_map, List.mem_filter, Bool.and_eq_true, beq_iff_eq,
        decide_eq_true_eq]
      constructor
      · rintro ⟨r, ⟨hr, hcrawl, hhash⟩, rfl⟩
        exact ⟨r, hr, rfl, hcrawl, hhash⟩
      · rintro ⟨r, hr, rfl, hcrawl, hhash⟩
        exact ⟨r, ⟨hr, hcrawl, hhash⟩, rfl⟩

/-- Witness for C1: three generations 1 < 2 < 3 on one path; the result
is characterized by the baseline generation 2. -/
theorem check_directory_baseline_witness :
    ∃ b mx : Int,
      mx ∈ crawlIds [⟨10, 1, "/d", "a", "hA"⟩, ⟨11, 2, "/d", "a", "hA"⟩,
        ⟨12, 3, "/d", "a", "hA"⟩] "/d" ∧
      (∀ c ∈ crawlIds [⟨10, 1, "/d", "a", "hA"⟩, ⟨11, 2, "/d", "a", "hA"⟩,
        ⟨12, 3, "/d", "a", "hA"⟩] "/d", c ≤ mx) ∧
      b ∈ crawlIds [⟨10, 1, "/d", "a", "hA"⟩, ⟨11, 2, "/d", "a", "hA"⟩,
        ⟨12, 3, "/d", "a", "hA"⟩] "/d" ∧ b < mx ∧
      (∀ c ∈ crawlIds [⟨10, 1, "/d", "a", "hA"⟩, ⟨11, 2, "/d", "a", "hA"⟩,
        ⟨12, 3, "/d", "a", "hA"⟩] "/d", c ≠ mx → c ≤ b) ∧
      ∃ l, check_directory true [⟨10, 1, "/d", "a", "hA"⟩, ⟨11, 2, "/d", "a", "hA"⟩,
          ⟨12, 3, "/d", "a", "hA"⟩] "/d" ["hA"] = Except.ok l ∧
        ∀ i : Int, i ∈ l ↔ ∃ r ∈ dirRows [⟨10, 1, "/d", "a", "hA"⟩,
            ⟨11, 2, "/d", "a", "hA"⟩, ⟨12, 3, "/d", "a", "hA"⟩] "/d",
          r.id = i ∧ r.crawl_id = b ∧ r.file_hash ∈ ["hA"] :=
  check_directory_baseline _ "/d" ["hA"] (by decide)

theorem buildQuery_ok (rows : List FileRow) :
    ∀ q : String, (∀ r ∈ rows, r.renderOk = true) →
      buildQuery rows q = some (q ++ renderedValues rows) := by
  induction rows with
  | nil => intro q _; simp [buildQuery, renderedValues]
  | cons r rest ih =>
    intro q h
    rw [buildQuery, if_pos (h r (by simp))]
    rw [ih _ (fun r' hr' => h r' (by simp [hr']))]
    simp [renderedValues, String.append_assoc]

theorem buildQuery_fail (rows : List FileRow) :
    ∀ q : String, (∃ r ∈ rows, r.renderOk = false) →
      buildQuery rows q = none := by
  induction rows with
  | nil => rintro q ⟨r, hr, _⟩; simp at hr
  | cons r rest ih =>
    rintro q ⟨r', hr', hfail⟩
    rw [buildQuery]
    rcases List.mem_cons.mp hr' with rfl | hmem
    · rw [if_neg (by simp [hfail])]
    · by_cases hok : r.renderOk = true
      · rw [if_pos hok]
        exact ih _ ⟨r', hmem, hfail⟩
      · rw [if_neg hok]

/-- C3: the batched insert is atomic.  When every mogrify succeeds it
issues exactly one multi-row statement; a construction failure issues no
statement at all and propagates; an execution failure rolls the batch
back (zero rows committed) and propagates; success commits the whole
batch. -/
theorem insert_new_record_files_atomic (execOk : String → Bool)
    (rows : List FileRow) (db : DbState) :
    ((∀ r ∈ rows, r.renderOk = true) →
      (insert_new_record_files execOk rows db).2.executed
          = db.executed ++ [renderedInsertQuery rows] ∧
      (execOk (renderedInsertQuery rows) = true →
        (insert_new_record_files execOk rows db).1 = Except.ok () ∧
        (insert_new_record_files execOk rows db).2.insertedBatches
            = db.insertedBatches ++ [rows]) ∧
      (execOk (renderedInsertQuery rows) = false →
        (insert_new_record_files execOk rows db).1 = Except.error () ∧
        (insert_new_record_files execOk rows db).2.insertedBatches
            = db.insertedBatches)) ∧
    ((∃ r ∈ rows, r.renderOk = false) →
      (insert_new_record_files execOk rows db).1 = Except.error () ∧
      (insert_new_record_files execOk rows db).2 = db) := by
  constructor
  · intro hok
    have hbuild := buildQuery_ok rows insertQueryStart hok
    refine ⟨?_, fun hexec => ?_, fun hexec => ?_⟩
    · simp only [insert_new_record_files, hbuild]
      by_cases he : execOk (renderedInsertQuery rows) = true
      · simp only [renderedInsertQuery] at he
        rw [if_pos he]
        rfl
      · simp only [renderedInsertQuery] at he
        rw [if_neg he]
        rfl
    · simp only [insert_new_record_files, hbuild]
      simp only [renderedInsertQuery] at hexec
      rw [if_pos hexec]
      exact ⟨rfl, rfl⟩
    · simp only [insert_new_record_files, hbuild]
      simp only [renderedInsertQuery] at hexec
      rw [if_neg (by simp [hexec])]
      exact ⟨rfl, rfl⟩
  · intro hfail
    simp only [insert_new_record_files, buildQuery_fail rows insertQueryStart hfail]
    exact ⟨trivial, trivial⟩

/-- Witness for C3: a two-row batch against a database that accepts the
statement, and the same batch with a failing mogrify. -/
theorem insert_new_record_files_atomic_witness :
    (insert_new_record_files (fun _ => true) [⟨"(1,a),", true⟩, ⟨"(2,b),", true⟩]
        ⟨[], [], [], []⟩).2.insertedBatches = [] ++ [[⟨"(1,a),", true⟩, ⟨"(2,b),", true⟩]] :=
  (((insert_new_record_files_atomic (fun _ => true)
      [⟨"(1,a),", true⟩, ⟨"(2,b),", true⟩] ⟨[], [], [], []⟩).1
        (by decide)).2.1 rfl).2

/-- C9: the bulk soft-delete issues no query at all for an empty id set,
and on a failing update it logs a warning and rolls back (marks
unchanged) without ever propagating the error (its type has no error
outcome). -/
theorem set_deleted_tolerant (execOk : String → Bool) (file_ids : List Int)
    (db : DbState) :
    (file_ids = [] → set_deleted execOk file_ids db = db) ∧
    (file_ids ≠ [] →
      (set_deleted execOk file_ids db).executed
          = db.executed ++ [deleteQueryOf file_ids] ∧
      (execOk (deleteQueryOf file_ids) = false →
        (set_deleted execOk file_ids db).deletedMarks = db.deletedMarks ∧
        (set_deleted execOk file_ids db).warnings
            = db.warnings ++ ["Error updating file deletion"]) ∧
      (execOk (deleteQueryOf file_ids) = true →
        (set_deleted execOk file_ids db).deletedMarks
            = db.deletedMarks ++ [file_ids])) := by
  constructor
  · intro h
    subst h
    rfl
  · intro h
    have hlen : ¬(file_ids.length < 1) := by
      cases file_ids with
      | nil => exact absurd rfl h
      | cons a l => simp
    rw [set_deleted, if_neg hlen]
    refine ⟨?_, fun hexec => ?_, fun hexec => ?_⟩
    · by_cases he : execOk (deleteQueryOf file_ids) = true
      · rw [if_pos he]
      · rw [if_neg he]
    · rw [if_neg (by simp [hexec])]
      exact ⟨rfl, rfl⟩
    · rw [if_pos hexec]

/-- Witness for C9: a non-empty id set against a failing database leaves
the deletion marks unchanged. -/
theorem set_deleted_tolerant_witness :
    (set_deleted (fun _ => false) [5, 6] ⟨[], [[1]], [], []⟩).deletedMarks = [[1]] :=
  (((set_deleted_tolerant (fun _ => false) [5, 6] ⟨[], [[1]], [], []⟩).2
      (by decide)).2.1 rfl).1

/-- C4: a worker receiving Pause performs no work and blocks on the
command channel until the next command arrives, which is dispatched
recursively: Pause then Unpause resumes normal work consumption
(run_command returns the continue verdict False), Pause then Stop
terminates after cleanup, and Pause then any unrecognized command logs
critical and terminates the worker fatally after cleanup; Pause with an
empty command channel blocks forever. -/
theorem run_command_pause_dispatch :
    (∀ s : WorkerState, s.commands = [] → run_command COMMAND_PAUSE s = none) ∧
    (∀ (s : WorkerState) (rest : List String), s.commands = COMMAND_UNPAUSE :: rest →
      run_command COMMAND_PAUSE s = some (false, { s with commands := rest })) ∧
    (∀ (s : WorkerState) (rest : List String), s.commands = COMMAND_STOP :: rest →
      run_command COMMAND_PAUSE s = some (true, clean_up { s with commands := rest })) ∧
    (∀ (s : WorkerState) (c : String) (rest : List String), s.commands = c :: rest →
      c ≠ COMMAND_STOP → c ≠ COMMAND_PAUSE → c ≠ COMMAND_UNPAUSE →
      run_command COMMAND_PAUSE s = some (true, clean_up
        { s with commands := rest, log := s.log ++ [WLog.invalidCommand] })) := by
  refine ⟨?_, ?_, ?_, ?_⟩
  · intro s h
    simp only [run_command, h]
    rw [run_command_aux.eq_def, if_neg (by decide), if_pos (by decide)]
  · intro s rest h
    simp only [run_command, h]
    rw [run_command_aux.eq_def, if_neg (by decide), if_pos (by decide)]
    show run_command_aux COMMAND_UNPAUSE rest s = _
    rw [run_command_aux.eq_def, if_pos (by decide)]
  · intro s rest h
    simp only [run_command, h]
    rw [run_command_aux.eq_def, if_neg (by decide), if_pos (by decide)]
    show run_command_aux COMMAND_STOP rest s = _
    rw [run_command_aux.eq_def, if_neg (by decide), if_neg (by decide), if_pos (by decide)]
  · intro s c rest h h1 h2 h3
    simp only [run_command, h]
    rw [run_command_aux.eq_def, if_neg (by decide), if_pos (by decide)]
    show run_command_aux c rest s = _
    rw [run_command_aux.eq_def, if_neg h3, if_neg h2, if_neg h1]

/-- Witness for C4: Pause then Unpause on a concrete state continues. -/
theorem run_command_pause_dispatch_witness :
    run_command COMMAND_PAUSE ⟨[COMMAND_UNPAUSE], [], true, [], []⟩
      = some (false, (⟨[], [], true, [], []⟩ : WorkerState)) :=
  run_command_pause_dispatch.2.1 ⟨[COMMAND_UNPAUSE], [], true, [], []⟩ [] rfl

/-- C6: for every work unit whose extraction succeeds and whose
processing meets no unrecoverable fault, every extractor result missing
one of Directory, FileName, FileType, FileSize is skipped — logged,
excluded from insertion — without aborting the rest of the unit, and
every result with all four fields is still processed and inserted. -/
theorem do_work_validation (tw : Int) (package : WorkUnit) (s : WorkerState)
    (hex : package.extractorOk = true)
    (hclean : ∀ e ∈ package.entries, validExif e.exif = true →
      e.hashOk = true ∧ e.insertOk = true) :
    do_work tw package s =
      { s with
        inserted := s.inserted
          ++ (package.entries.filter (fun e => validExif e.exif)).map (insertStmt tw),
        log := s.log ++ (package.entries.filter (fun e => !validExif e.exif)).map
          (fun _ => WLog.skipMissingField) } := by
  rw [do_work, if_pos hex]
  exact processEntries_clean tw package.entries s hclean

/-- Witness for C6: a unit with one invalid result (FileType missing)
and one valid result; the invalid one is skipped and logged, the valid
one inserted. -/
theorem do_work_validation_witness :
    do_work 1
      ⟨true, [⟨⟨some "/d", some "a.txt", none, some "5 kB", none, none, none, "r1"⟩,
                true, "h1", true⟩,
              ⟨⟨some "/d", some "b.txt", some "TXT", some "7 kB", none, none, none, "r2"⟩,
                true, "h2", true⟩]⟩
      ⟨[], [], true, [], []⟩ =
      { commands := [], work := [], connOpen := true,
        inserted := [] ++ ((([⟨⟨some "/d", some "a.txt", none, some "5 kB", none, none, none,
            "r1"⟩, true, "h1", true⟩,
          ⟨⟨some "/d", some "b.txt", some "TXT", some "7 kB", none, none, none, "r2"⟩,
            true, "h2", true⟩] : List FileEntry).filter
              (fun e => validExif e.exif)).map (insertStmt 1)),
        log := [] ++ ((([⟨⟨some "/d", some "a.txt", none, some "5 kB", none, none, none,
            "r1"⟩, true, "h1", true⟩,
          ⟨⟨some "/d", some "b.txt", some "TXT", some "7 kB", none, none, none, "r2"⟩,
            true, "h2", true⟩] : List FileEntry).filter
              (fun e => !validExif e.exif)).map (fun _ => WLog.skipMissingField)) } :=
  do_work_validation 1 _ _ rfl (by decide)

/-- C5: an unrecoverable per-unit fault — extractor invocation failure,
hash-read failure, or insert failure — aborts the remainder of the
current work unit, is logged, and the worker does not terminate: the run
loop proceeds to its next iteration with the faulty unit consumed. -/
theorem do_work_unit_fault :
    (∀ (tw : Int) (package : WorkUnit) (s : WorkerState), package.extractorOk = false →
      do_work tw package s = { s with log := s.log ++ [WLog.unitFault] }) ∧
    (∀ (tw : Int) (front back : List FileEntry) (e : FileEntry) (package : WorkUnit)
        (s : WorkerState),
      package.extractorOk = true → package.entries = front ++ e :: back →
      (∀ x ∈ front, cleanEntry x) → validExif e.exif = true →
      (e.hashOk = false ∨ e.insertOk = false) →
      do_work tw package s =
        { s with
          inserted := s.inserted
            ++ (front.filter (fun x => validExif x.exif)).map (insertStmt tw),
          log := s.log ++ (front.filter (fun x => !validExif x.exif)).map
            (fun _ => WLog.skipMissingField) ++ [WLog.unitFault] }) ∧
    (∀ (tw : Int) (package : WorkUnit) (ws : List WorkUnit) (s : WorkerState),
      s.commands = [] → s.work = package :: ws →
      run tw s = run tw (do_work tw package { s with work := ws })) := by
  refine ⟨?_, ?_, ?_⟩
  · intro tw package s h
    rw [do_work, if_neg (by simp [h])]
  · intro tw front back e package s hex hentries hfront hv hfault
    rw [do_work, if_pos hex, hentries]
    exact processEntries_fault tw front s e back hfront hv hfault
  · intro tw package ws s h1 h2
    exact run_nil_cons tw s package ws h1 h2

/-- Witness for C5: one valid entry whose hash read fails; the unit
aborts with only the fault logged. -/
theorem do_work_unit_fault_witness :
    do_work 1
      ⟨true, [⟨⟨some "/d", some "c.txt", some "TXT", some "1 kB", none, none, none, "r3"⟩,
                false, "h3", true⟩]⟩
      ⟨[], [], true, [], []⟩ =
      { commands := [], work := [], connOpen := true,
        inserted := [] ++ (([] : List FileEntry).filter
            (fun x => validExif x.exif)).map (insertStmt 1),
        log := [] ++ (([] : List FileEntry).filter
            (fun x => !validExif x.exif)).map (fun _ => WLog.skipMissingField)
          ++ [WLog.unitFault] } :=
  do_work_unit_fault.2.1 1 [] []
    ⟨⟨some "/d", some "c.txt", some "TXT", some "1 kB", none, none, none, "r3"⟩,
      false, "h3", true⟩ _ _ rfl rfl (by simp) rfl (Or.inl rfl)

/-- C2 as frozen is false on the code: a worker that terminates because
the work channel is empty (implicit exhaustion) never calls _clean_up,
so its connection stays open.  Concretely, the worker started on empty
queues terminates with `connOpen` still true. -/
theorem run_cleanup_claim_counterexample :
    ¬ (∀ (tw : Int) (s s' : WorkerState), run tw s = some s' →
        s'.connOpen = false ∧ s'.work = []) := by
  intro h
  have h1 := (h 0 ⟨[], [], true, [], []⟩ ⟨[], [], true, [], []⟩
    (run_nil_nil 0 ⟨[], [], true, [], []⟩ rfl rfl)).1
  simp at h1

/-- C2 amended: every terminating run leaves the work channel empty, and
a termination triggered through run_command (Stop or an unrecognized
command) additionally closes the connection and drains the channel; but
on implicit exhaustion (both queues empty) the worker finishes with its
state untouched — in particular the connection is not released there. -/
theorem run_cleanup_amended :
    (∀ (tw : Int) (s s' : WorkerState), run tw s = some s' → s'.work = []) ∧
    (∀ (cmd : String) (s s1 : WorkerState),
      run_command cmd s = some (true, s1) → s1.connOpen = false ∧ s1.work = []) ∧
    (∀ (tw : Int) (s : WorkerState), s.commands = [] → s.work = [] →
      run tw s = some s) := by
  refine ⟨fun tw s s' h => run_some_work_nil tw s s' h,
    fun cmd s s1 h => ?_, fun tw s h1 h2 => run_nil_nil tw s h1 h2⟩
  have h3 := (run_command_some h).2 rfl
  exact ⟨h3.1, h3.2.1⟩

/-- Witness for C2 amended: a Stop command on a concrete state closes
the connection and empties the work channel. -/
theorem run_cleanup_amended_witness :
    (⟨[], [], false, [], []⟩ : WorkerState).connOpen = false ∧
      (⟨[], [], false, [], []⟩ : WorkerState).work = [] :=
  run_cleanup_amended.2.1 COMMAND_STOP ⟨[], [⟨true, []⟩], true, [], []⟩
    ⟨[], [], false, [], []⟩ rfl

end Crawler
